import Mathlib

/-!
Verification of the pngme chunk core: a shallow embedding in Lean 4 of
`src/chunk_type.rs` (ChunkType) and `src/chunk.rs` (Chunk), with theorems
settling the specification claims about them.

Bytes are modelled as `Nat` values (u8 values are below 256; the predicates
used by the code constrain them where the code does). `Result<T, E>` with a
unit-like error type is modelled as `Option`. A Rust panic (out-of-bounds
indexing or `.unwrap()` on an `Err`) is a distinct observable outcome,
modelled by the `ChunkParse.panicked` constructor.
-/

namespace Pngme

/-- Embeds `u8::is_ascii_alphabetic`: the byte is in A-Z or a-z. -/
def isAsciiAlphabetic (b : Nat) : Bool :=
  (decide (65 ≤ b) && decide (b ≤ 90)) || (decide (97 ≤ b) && decide (b ≤ 122))

/-- Embeds `u8::is_ascii_uppercase`: the byte is in A-Z. -/
def isAsciiUppercase (b : Nat) : Bool :=
  decide (65 ≤ b) && decide (b ≤ 90)

/-- Embeds `u8::is_ascii_lowercase`: the byte is in a-z. -/
def isAsciiLowercase (b : Nat) : Bool :=
  decide (97 ≤ b) && decide (b ≤ 122)

/-- A fixed-size 4-byte array, embedding Rust `[u8; 4]`. -/
structure Bytes4 where
  b0 : Nat
  b1 : Nat
  b2 : Nat
  b3 : Nat
deriving DecidableEq, Repr

/-- The 4 bytes in order, as a list. -/
def Bytes4.toList (b : Bytes4) : List Nat := [b.b0, b.b1, b.b2, b.b3]

/-- Embeds the `ChunkType` struct of `src/chunk_type.rs`: the raw 4 bytes plus
the eagerly computed boolean fields. Lean structure equality compares all
fields, matching the derived `PartialEq`. -/
structure ChunkType where
  bytes : Bytes4
  is_valid : Bool
  is_critical : Bool
  is_public : Bool
  is_reserved_bit_valid : Bool
  is_safe_to_copy : Bool
deriving DecidableEq, Repr

/-- Embeds `ChunkType::new` (src/chunk_type.rs): `is_valid` iff all 4 bytes are
ASCII alphabetic; `is_critical`, `is_public`, `is_reserved_bit_valid` from
`is_ascii_uppercase` of bytes 0, 1, 2; `is_safe_to_copy` from
`is_ascii_lowercase` of byte 3; returns the struct when valid, the error
(`none`) otherwise. `TryFrom<[u8; 4]>` clones its input and delegates here. -/
def ChunkType.new (bytes : Bytes4) : Option ChunkType :=
  let is_valid := bytes.toList.all isAsciiAlphabetic
  let is_critical := isAsciiUppercase bytes.b0
  let is_public := isAsciiUppercase bytes.b1
  let is_reserved_bit_valid := isAsciiUppercase bytes.b2
  let is_safe_to_copy := isAsciiLowercase bytes.b3
  if is_valid then
    some ⟨bytes, is_valid, is_critical, is_public, is_reserved_bit_valid, is_safe_to_copy⟩
  else
    none

/-- The value `ChunkType::new` returns on its success path, spelled out. -/
def ChunkType.ofValid (b : Bytes4) : ChunkType :=
  ⟨b, true, isAsciiUppercase b.b0, isAsciiUppercase b.b1,
    isAsciiUppercase b.b2, isAsciiLowercase b.b3⟩

/-- Embeds `ChunkType::from_str` (src/chunk_type.rs): the string is viewed as
its UTF-8 bytes; with at least 4 bytes the first 4 are copied and passed to
`ChunkType::new`, otherwise the error is returned. -/
def ChunkType.fromStr (s : List Nat) : Option ChunkType :=
  if 4 ≤ s.length then
    ChunkType.new ⟨s.getD 0 0, s.getD 1 0, s.getD 2 0, s.getD 3 0⟩
  else
    none

/-- Reversed CRC-32 polynomial 0xEDB88320, the reflected form of 0x04C11DB7
used by the crc crate parameter set `CRC_32_ISO_HDLC`. -/
def crc32Poly : Nat := 0xEDB88320

/-- One bit step of the reflected CRC-32 update. -/
def crc32StepBit (c : Nat) : Nat :=
  if c % 2 = 1 then (c / 2) ^^^ crc32Poly else c / 2

/-- Feed one byte into the running CRC-32 state: xor it in, then 8 bit steps. -/
def crc32StepByte (c b : Nat) : Nat :=
  (List.range 8).foldl (fun acc _ => crc32StepBit acc) (c ^^^ b)

/-- Embeds `Crc::<u32>::new(&CRC_32_ISO_HDLC).checksum(data)`: CRC-32/ISO-HDLC
(init all-ones, reflected, final xor all-ones). Validated below against the
repository test value 2882656334 for "RuSt" followed by the test message. -/
def crc32 (data : List Nat) : Nat :=
  (data.foldl crc32StepByte 0xFFFFFFFF) ^^^ 0xFFFFFFFF

/-- Embeds `u32::from_be_bytes` on 4 byte values. -/
def fromBe32 (b0 b1 b2 b3 : Nat) : Nat :=
  ((b0 * 256 + b1) * 256 + b2) * 256 + b3

/-- Embeds `u32::to_be_bytes`: the 4 big-endian bytes of a 32-bit value. -/
def toBe32 (n : Nat) : List Nat :=
  [n / 16777216 % 256, n / 65536 % 256, n / 256 % 256, n % 256]

/-- Embeds the `Chunk` struct of `src/chunk.rs`. -/
structure Chunk where
  length : Nat
  chunk_type : ChunkType
  data : List Nat
  crc : Nat
deriving DecidableEq, Repr

/-- Embeds `Chunk::new` (src/chunk.rs): `length` is `data.len() as u32` (a
truncating cast, hence the mod 2^32), and `crc` is the CRC-32/ISO-HDLC
checksum of the type tag bytes followed by the data bytes. Infallible. -/
def Chunk.new (chunk_type : ChunkType) (data : List Nat) : Chunk :=
  ⟨data.length % 2 ^ 32, chunk_type, data, crc32 (chunk_type.bytes.toList ++ data)⟩

/-- Embeds `Chunk::data` / `Chunk::length` / `Chunk::crc` accessors implicitly
via the structure fields; `Chunk::as_bytes` returns `self.data().to_vec()`. -/
def Chunk.asBytes (c : Chunk) : List Nat := c.data

/-- Outcome of `<Chunk as TryFrom<&[u8]>>::try_from`: `ok` and `err` are the
two `Result` values; `panicked` marks the executions in which the Rust code
panics (slice indexing out of bounds, or `.unwrap()` of an `Err`). -/
inductive ChunkParse where
  | ok : Chunk → ChunkParse
  | err : ChunkParse
  | panicked : ChunkParse
deriving DecidableEq, Repr

/-- The length field: `u32::from_be_bytes(value[0..4].try_into().unwrap())`. -/
def wireLen (v : List Nat) : Nat :=
  fromBe32 (v.getD 0 0) (v.getD 1 0) (v.getD 2 0) (v.getD 3 0)

/-- The tag bytes `[value[4], value[5], value[6], value[7]]`. -/
def wireTag (v : List Nat) : Bytes4 :=
  ⟨v.getD 4 0, v.getD 5 0, v.getD 6 0, v.getD 7 0⟩

/-- The trailing field `u32::from_be_bytes(value[8 + length..].try_into().unwrap())`,
reading the 4 bytes starting at offset `8 + length`. -/
def wireCrc (v : List Nat) : Nat :=
  fromBe32 (v.getD (8 + wireLen v) 0) (v.getD (9 + wireLen v) 0)
    (v.getD (10 + wireLen v) 0) (v.getD (11 + wireLen v) 0)

/-- The recomputed checksum `checksum(&value[4..8 + length as usize])`. -/
def wireCrcExpected (v : List Nat) : Nat :=
  crc32 ((v.drop 4).take (4 + wireLen v))

/-- Embeds `<Chunk as TryFrom<&[u8]>>::try_from` (src/chunk.rs), panic-exactly:
fewer than 4 bytes is `Err(ChunkError)`; indexing `value[4..=7]` with fewer
than 8 bytes panics; `ChunkType::try_from(...).unwrap()` panics on an invalid
tag; the slice `value[8..8 + length]` panics when the buffer is shorter than
`8 + length`; `value[8 + length..].try_into().unwrap()` panics unless exactly
4 bytes remain; finally the stored crc is compared with the recomputed one. -/
def Chunk.tryFrom (value : List Nat) : ChunkParse :=
  if value.length < 4 then
    ChunkParse.err
  else if value.length < 8 then
    ChunkParse.panicked
  else
    match ChunkType.new (wireTag value) with
    | none => ChunkParse.panicked
    | some chunk_type =>
      if value.length < 8 + wireLen value then
        ChunkParse.panicked
      else if value.length - (8 + wireLen value) ≠ 4 then
        ChunkParse.panicked
      else if wireCrc value = wireCrcExpected value then
        ChunkParse.ok ⟨wireLen value, chunk_type, (value.drop 8).take (wireLen value), wireCrc value⟩
      else
        ChunkParse.err

/-- The wire form `length to_be_bytes, tag bytes, data, crc to_be_bytes` of
section 6 of the specification, assembled from the four accessors (the core
has no single serializer; this is the documented assembly the round-trip and
layout claims refer to). -/
def Chunk.assembleWire (c : Chunk) : List Nat :=
  toBe32 c.length ++ c.chunk_type.bytes.toList ++ c.data ++ toBe32 c.crc

/-- The repository test tag "RuSt" as the ChunkType value `new` produces. -/
def tRuSt : ChunkType := ⟨⟨82, 117, 83, 116⟩, true, true, false, true, true⟩

/-- The repository test message "This is where your secret message will be!". -/
def testMsg : List Nat :=
  [84, 104, 105, 115, 32, 105, 115, 32, 119, 104, 101, 114, 101, 32, 121, 111,
   117, 114, 32, 115, 101, 99, 114, 101, 116, 32, 109, 101, 115, 115, 97, 103,
   101, 32, 119, 105, 108, 108, 32, 98, 101, 33]

/-- A well-formed 12-byte wire buffer: length 0, tag "RuSt", correct crc
(crc32 of the bytes of "RuSt" is 3565422908 = bytes 212, 132, 9, 60). -/
def vOk : List Nat := [0, 0, 0, 0, 82, 117, 83, 116, 212, 132, 9, 60]

/-- The chunk that parsing `vOk` yields. -/
def cOk : Chunk := ⟨0, tRuSt, [], 3565422908⟩

set_option maxRecDepth 10000 in
/-- The crc32 embedding reproduces the checksum the repository tests hard-code
for tag "RuSt" and the test message (chunk.rs, `test_new_chunk`). -/
theorem crc32_matches_repo_test :
    crc32 ([82, 117, 83, 116] ++ testMsg) = 2882656334 := by decide

/-- Success of `ChunkType::new` pins down the result and the validity of the
input bytes. -/
lemma ChunkType.new_eq_some {b : Bytes4} {t : ChunkType} (h : ChunkType.new b = some t) :
    t = ChunkType.ofValid b ∧ b.toList.all isAsciiAlphabetic = true := by
  simp only [ChunkType.new] at h
  split at h
  next hv =>
    injection h with h
    subst h
    exact ⟨by simp [ChunkType.ofValid, hv], hv⟩
  next => exact absurd h (by simp)

/-- All-alphabetic bytes make `ChunkType::new` succeed with the spelled-out
value. -/
lemma ChunkType.new_of_valid {b : Bytes4} (h : b.toList.all isAsciiAlphabetic = true) :
    ChunkType.new b = some (ChunkType.ofValid b) := by
  simp [ChunkType.new, ChunkType.ofValid, h]

/-- `ChunkType::new` succeeds exactly when all 4 bytes are ASCII alphabetic. -/
lemma ChunkType.new_isSome (b : Bytes4) :
    (ChunkType.new b).isSome = true ↔ b.toList.all isAsciiAlphabetic = true := by
  simp only [ChunkType.new]
  split <;> simp_all

/-- C1 counterexample: the tag "RuSt" (byte 3 is 116, a lowercase letter, not
uppercase) constructs successfully with `is_safe_to_copy = true`, refuting the
claim that a lowercase byte yields `false` for its flag: position 3 is derived
with `is_ascii_lowercase`, not `is_ascii_uppercase`. -/
theorem safe_to_copy_lowercase_counterexample :
    (ChunkType.new ⟨82, 117, 83, 116⟩).map ChunkType.is_safe_to_copy = some true ∧
    isAsciiUppercase 116 = false ∧ isAsciiLowercase 116 = true := by decide

/-- C1 (amended): for every successfully constructed TypeTag, `is_critical`,
`is_public` and `is_reserved_bit_valid` are the uppercase tests of bytes 0, 1
and 2, while `is_safe_to_copy` is the lowercase test of byte 3. -/
theorem chunkType_new_flags (b : Bytes4) (t : ChunkType) (h : ChunkType.new b = some t) :
    t.is_critical = isAsciiUppercase b.b0 ∧
    t.is_public = isAsciiUppercase b.b1 ∧
    t.is_reserved_bit_valid = isAsciiUppercase b.b2 ∧
    t.is_safe_to_copy = isAsciiLowercase b.b3 := by
  obtain ⟨rfl, -⟩ := ChunkType.new_eq_some h
  exact ⟨rfl, rfl, rfl, rfl⟩

/-- C1 amended-claim witness at the concrete tag "RuSt". -/
theorem chunkType_new_flags_witness :
    tRuSt.is_critical = isAsciiUppercase 82 ∧
    tRuSt.is_public = isAsciiUppercase 117 ∧
    tRuSt.is_reserved_bit_valid = isAsciiUppercase 83 ∧
    tRuSt.is_safe_to_copy = isAsciiLowercase 116 :=
  chunkType_new_flags ⟨82, 117, 83, 116⟩ tRuSt (by decide)

/-- C2: a 4-byte buffer is shorter than 12 bytes, yet `Chunk::try_from` does
not return `ChunkError` on it: reading `value[4]` after the length-field check
panics with an index out of bounds, the failing execution the claim rules
out. -/
theorem tryFrom_short_buffer_panics :
    List.length [0, 0, 0, 0] < 12 ∧
    Chunk.tryFrom [0, 0, 0, 0] = ChunkParse.panicked := by decide

/-- C3: a 12-byte buffer whose tag bytes contain the digit 49 (not ASCII
alphabetic) does not yield `ChunkError`: `ChunkType::try_from(...).unwrap()`
panics on the `Err`, the failing execution the claim rules out. -/
theorem tryFrom_invalid_tag_panics :
    isAsciiAlphabetic 49 = false ∧
    Chunk.tryFrom [0, 0, 0, 0, 82, 117, 49, 116, 0, 0, 0, 0] = ChunkParse.panicked := by
  decide

/-- C6: `Chunk::new` is infallible (a total function here) and the chunk it
builds has `length = data.len() as u32` (the truncating cast) and `crc` the
CRC-32/ISO-HDLC checksum of the tag bytes followed by the payload; the tag and
payload are stored verbatim. -/
theorem chunk_new_fields (t : ChunkType) (d : List Nat) :
    (Chunk.new t d).length = d.length % 2 ^ 32 ∧
    (Chunk.new t d).crc = crc32 (t.bytes.toList ++ d) ∧
    (Chunk.new t d).chunk_type = t ∧
    (Chunk.new t d).data = d :=
  ⟨rfl, rfl, rfl, rfl⟩

/-- C6 witness at the concrete tag "RuSt" and a 1-byte payload. -/
theorem chunk_new_fields_witness :
    (Chunk.new tRuSt [104]).length = List.length [104] % 2 ^ 32 ∧
    (Chunk.new tRuSt [104]).crc = crc32 (tRuSt.bytes.toList ++ [104]) ∧
    (Chunk.new tRuSt [104]).chunk_type = tRuSt ∧
    (Chunk.new tRuSt [104]).data = [104] :=
  chunk_new_fields tRuSt [104]

/-- C8: two successfully constructed TypeTags are equal (full structure
equality, matching the derived `PartialEq` over all fields) iff their raw
4-byte arrays are equal. -/
theorem chunkType_eq_iff_bytes_eq (b b' : Bytes4) (t t' : ChunkType)
    (h : ChunkType.new b = some t) (h' : ChunkType.new b' = some t') :
    t = t' ↔ t.bytes = t'.bytes := by
  obtain ⟨rfl, -⟩ := ChunkType.new_eq_some h
  obtain ⟨rfl, -⟩ := ChunkType.new_eq_some h'
  constructor
  · intro he
    rw [he]
  · intro he
    have hb : b = b' := he
    rw [hb]

/-- C8 witness at the concrete tag "RuSt" constructed twice. -/
theorem chunkType_eq_iff_bytes_eq_witness :
    tRuSt = tRuSt ↔ tRuSt.bytes = tRuSt.bytes :=
  chunkType_eq_iff_bytes_eq ⟨82, 117, 83, 116⟩ ⟨82, 117, 83, 116⟩ tRuSt tRuSt
    (by decide) (by decide)

/-- C9: `Chunk::as_bytes` returns exactly the payload (the `data` field), and
never the full wire-format encoding, whose length is 12 bytes larger. -/
theorem chunk_asBytes_is_payload (c : Chunk) :
    Chunk.asBytes c = c.data ∧ Chunk.asBytes c ≠ Chunk.assembleWire c := by
  refine ⟨rfl, fun h => ?_⟩
  have hlen := congrArg List.length h
  simp [Chunk.asBytes, Chunk.assembleWire, toBe32, Bytes4.toList] at hlen
  omega

/-- C9 witness at the concrete chunk `cOk`. -/
theorem chunk_asBytes_is_payload_witness :
    Chunk.asBytes cOk = cOk.data ∧ Chunk.asBytes cOk ≠ Chunk.assembleWire cOk :=
  chunk_asBytes_is_payload cOk

/-- C7: `ChunkType::from_str` fails on fewer than 4 bytes; with at least 4
bytes it delegates the first 4 bytes to `ChunkType::new`, ignoring any excess
(the result only depends on the first 4 bytes), and succeeds iff those 4 bytes
are all ASCII alphabetic. -/
theorem chunkType_fromStr_spec (s : List Nat) :
    (s.length < 4 → ChunkType.fromStr s = none) ∧
    (4 ≤ s.length →
      ChunkType.fromStr s = ChunkType.new ⟨s.getD 0 0, s.getD 1 0, s.getD 2 0, s.getD 3 0⟩) ∧
    (4 ≤ s.length → ChunkType.fromStr s = ChunkType.fromStr (s.take 4)) ∧
    (4 ≤ s.length →
      ((ChunkType.fromStr s).isSome = true ↔
        [s.getD 0 0, s.getD 1 0, s.getD 2 0, s.getD 3 0].all isAsciiAlphabetic = true)) := by
  match s with
  | [] => refine ⟨fun _ => rfl, ?_, ?_, ?_⟩ <;> intro h <;> simp at h
  | [a] => refine ⟨fun _ => rfl, ?_, ?_, ?_⟩ <;> intro h <;> simp at h
  | [a, b] => refine ⟨fun _ => rfl, ?_, ?_, ?_⟩ <;> intro h <;> simp at h
  | [a, b, c] => refine ⟨fun _ => rfl, ?_, ?_, ?_⟩ <;> intro h <;> simp at h
  | a :: b :: c :: d :: rest =>
    have hc : 4 ≤ (a :: b :: c :: d :: rest).length := by simp
    have h1 : ChunkType.fromStr (a :: b :: c :: d :: rest) = ChunkType.new ⟨a, b, c, d⟩ := by
      unfold ChunkType.fromStr
      rw [if_pos hc]
      rfl
    refine ⟨fun h => by simp at h; omega, fun _ => h1, fun _ => ?_, fun _ => ?_⟩
    · rw [h1]
      rfl
    · rw [h1, ChunkType.new_isSome]
      simp [Bytes4.toList, List.getD]

/-- C7 witness: a 2-byte label fails, and a 5-byte label is decided by its
first 4 bytes alone. -/
theorem chunkType_fromStr_spec_witness :
    ChunkType.fromStr [82, 117] = none ∧
    ChunkType.fromStr [82, 117, 83, 116, 120] = ChunkType.new ⟨82, 117, 83, 116⟩ :=
  ⟨(chunkType_fromStr_spec [82, 117]).1 (by decide),
    (chunkType_fromStr_spec [82, 117, 83, 116, 120]).2.1 (by decide)⟩

/-- C10: whenever `Chunk::try_from` returns `Ok`, the input buffer's length is
exactly `12 + length`: the trailing slice `value[8 + length..]` must convert
into exactly a 4-byte array, so no extra bytes after the crc are tolerated. -/
theorem tryFrom_ok_exact_length (v : List Nat) (c : Chunk)
    (h : Chunk.tryFrom v = ChunkParse.ok c) :
    v.length = 12 + c.length := by
  unfold Chunk.tryFrom at h
  split at h
  · exact ChunkParse.noConfusion h
  split at h
  · exact ChunkParse.noConfusion h
  split at h
  · exact ChunkParse.noConfusion h
  split at h
  · exact ChunkParse.noConfusion h
  split at h
  · exact ChunkParse.noConfusion h
  split at h
  · injection h with h
    subst h
    show v.length = 12 + wireLen v
    omega
  · exact ChunkParse.noConfusion h

set_option maxRecDepth 4000 in
/-- C10 witness at the concrete well-formed buffer `vOk`. -/
theorem tryFrom_ok_exact_length_witness : vOk.length = 12 + cOk.length :=
  tryFrom_ok_exact_length vOk cOk (by decide)

/-- On a structurally well-formed buffer (length exactly `12 + length` and an
alphabetic tag), `Chunk::try_from` reduces to the crc comparison. -/
lemma tryFrom_wellformed (v : List Nat) (hlen : v.length = 12 + wireLen v)
    (htag : (wireTag v).toList.all isAsciiAlphabetic = true) :
    Chunk.tryFrom v =
      if wireCrc v = wireCrcExpected v then
        ChunkParse.ok ⟨wireLen v, ChunkType.ofValid (wireTag v),
          (v.drop 8).take (wireLen v), wireCrc v⟩
      else ChunkParse.err := by
  have hnew := ChunkType.new_of_valid htag
  unfold Chunk.tryFrom
  simp only [hnew]
  rw [if_neg (show ¬v.length < 4 by omega), if_neg (show ¬v.length < 8 by omega),
    if_neg (show ¬v.length < 8 + wireLen v by omega),
    if_neg (show ¬v.length - (8 + wireLen v) ≠ 4 by omega)]

/-- C4: on a structurally well-formed buffer, parsing succeeds iff the trailing
crc field equals the recomputed CRC-32/ISO-HDLC checksum over tag and payload,
and on a mismatch it returns `ChunkError` and produces no chunk. -/
theorem tryFrom_crc_gate (v : List Nat) (hlen : v.length = 12 + wireLen v)
    (htag : (wireTag v).toList.all isAsciiAlphabetic = true) :
    (wireCrc v = wireCrcExpected v →
      Chunk.tryFrom v = ChunkParse.ok ⟨wireLen v, ChunkType.ofValid (wireTag v),
        (v.drop 8).take (wireLen v), wireCrc v⟩) ∧
    (wireCrc v ≠ wireCrcExpected v → Chunk.tryFrom v = ChunkParse.err) := by
  have h := tryFrom_wellformed v hlen htag
  constructor <;> intro hcrc
  · rw [h, if_pos hcrc]
  · rw [h, if_neg hcrc]

set_option maxRecDepth 4000 in
/-- C4 witness: `vOk` carries the matching checksum and parses to `ok`; the
same buffer with its last byte changed fails with the error. -/
theorem tryFrom_crc_gate_witness :
    Chunk.tryFrom vOk = ChunkParse.ok ⟨wireLen vOk, ChunkType.ofValid (wireTag vOk),
      (vOk.drop 8).take (wireLen vOk), wireCrc vOk⟩ ∧
    Chunk.tryFrom [0, 0, 0, 0, 82, 117, 83, 116, 212, 132, 9, 61] = ChunkParse.err :=
  ⟨(tryFrom_crc_gate vOk (by decide) (by decide)).1 (by decide),
    (tryFrom_crc_gate [0, 0, 0, 0, 82, 117, 83, 116, 212, 132, 9, 61]
      (by decide) (by decide)).2 (by decide)⟩

/-- An ASCII alphabetic byte value is below 256. -/
lemma isAsciiAlphabetic_lt {x : Nat} (h : isAsciiAlphabetic x = true) : x < 256 := by
  simp [isAsciiAlphabetic] at h
  omega

/-- One CRC bit step keeps the state below 2^32. -/
lemma crc32StepBit_lt {c : Nat} (hc : c < 2 ^ 32) : crc32StepBit c < 2 ^ 32 := by
  unfold crc32StepBit
  split
  · exact Nat.xor_lt_two_pow (by omega) (by norm_num [crc32Poly])
  · omega

/-- One CRC byte step keeps the state below 2^32. -/
lemma crc32StepByte_lt {c b : Nat} (hc : c < 2 ^ 32) (hb : b < 2 ^ 32) :
    crc32StepByte c b < 2 ^ 32 := by
  unfold crc32StepByte
  have h0 : c ^^^ b < 2 ^ 32 := Nat.xor_lt_two_pow hc hb
  have hr : List.range 8 = [0, 1, 2, 3, 4, 5, 6, 7] := rfl
  rw [hr]
  simp only [List.foldl]
  exact crc32StepBit_lt (crc32StepBit_lt (crc32StepBit_lt (crc32StepBit_lt
    (crc32StepBit_lt (crc32StepBit_lt (crc32StepBit_lt (crc32StepBit_lt h0)))))))

/-- Folding CRC byte steps over byte data keeps the state below 2^32. -/
lemma crc32_foldl_lt : ∀ (data : List Nat) (c : Nat), c < 2 ^ 32 → (∀ x ∈ data, x < 256) →
    data.foldl crc32StepByte c < 2 ^ 32 := by
  intro data
  induction data with
  | nil =>
    intro c hc _
    simpa using hc
  | cons a l ih =>
    intro c hc hx
    rw [List.foldl_cons]
    refine ih _ (crc32StepByte_lt hc ?_) (fun x hxl => hx x (by simp [hxl]))
    have := hx a (by simp)
    omega

/-- The checksum of byte data fits in 32 bits. -/
lemma crc32_lt (data : List Nat) (h : ∀ x ∈ data, x < 256) : crc32 data < 2 ^ 32 := by
  unfold crc32
  exact Nat.xor_lt_two_pow (crc32_foldl_lt data _ (by norm_num) h) (by norm_num)

/-- Reading back the 4 big-endian bytes of a 32-bit value recovers it. -/
lemma fromBe32_toBe32 {n : Nat} (h : n < 2 ^ 32) :
    fromBe32 (n / 16777216 % 256) (n / 65536 % 256) (n / 256 % 256) (n % 256) = n := by
  unfold fromBe32
  omega

/-- Indexing past a prefix of known length lands in the suffix. -/
lemma getD_shift (p X : List Nat) (j i : Nat) (h : j = p.length + i) :
    (p ++ X).getD j 0 = X.getD i 0 := by
  rw [List.getD_append_right p X 0 j (by omega)]
  congr 1
  omega

/-- Reading the section-6 wire assembly back: the length field, tag bytes,
trailing crc field, recomputed checksum, payload slice, and total size are the
assembled ones. -/
lemma wire_facts (bt : Bytes4) (d : List Nat) (n crcv : Nat)
    (hn : n = d.length) (hd32 : d.length < 2 ^ 32) (hcrcv : crcv < 2 ^ 32) :
    wireLen (toBe32 n ++ bt.toList ++ d ++ toBe32 crcv) = n ∧
    wireTag (toBe32 n ++ bt.toList ++ d ++ toBe32 crcv) = bt ∧
    wireCrc (toBe32 n ++ bt.toList ++ d ++ toBe32 crcv) = crcv ∧
    wireCrcExpected (toBe32 n ++ bt.toList ++ d ++ toBe32 crcv) = crc32 (bt.toList ++ d) ∧
    ((toBe32 n ++ bt.toList ++ d ++ toBe32 crcv).drop 8).take n = d ∧
    (toBe32 n ++ bt.toList ++ d ++ toBe32 crcv).length = 12 + n := by
  have hWL : wireLen (toBe32 n ++ bt.toList ++ d ++ toBe32 crcv) = n := by
    show fromBe32 (n / 16777216 % 256) (n / 65536 % 256) (n / 256 % 256) (n % 256) = n
    exact fromBe32_toBe32 (by omega)
  have hWT : wireTag (toBe32 n ++ bt.toList ++ d ++ toBe32 crcv) = bt := rfl
  have hsplit : toBe32 n ++ bt.toList ++ d ++ toBe32 crcv =
      (toBe32 n ++ bt.toList) ++ (d ++ toBe32 crcv) := by
    rw [List.append_assoc]
  have h8 : (toBe32 n ++ bt.toList).length = 8 := by
    simp [toBe32, Bytes4.toList]
  have hdrop8 : (toBe32 n ++ bt.toList ++ d ++ toBe32 crcv).drop 8 = d ++ toBe32 crcv := rfl
  have htake : ((toBe32 n ++ bt.toList ++ d ++ toBe32 crcv).drop 8).take n = d := by
    rw [hdrop8, hn, List.take_left]
  have hlenv : (toBe32 n ++ bt.toList ++ d ++ toBe32 crcv).length = 12 + n := by
    simp [toBe32, Bytes4.toList]
    omega
  have hWCrc : wireCrc (toBe32 n ++ bt.toList ++ d ++ toBe32 crcv) = crcv := by
    unfold wireCrc
    rw [hWL, hsplit]
    rw [getD_shift (toBe32 n ++ bt.toList) (d ++ toBe32 crcv) (8 + n) d.length (by omega),
      getD_shift (toBe32 n ++ bt.toList) (d ++ toBe32 crcv) (9 + n) (d.length + 1) (by omega),
      getD_shift (toBe32 n ++ bt.toList) (d ++ toBe32 crcv) (10 + n) (d.length + 2) (by omega),
      getD_shift (toBe32 n ++ bt.toList) (d ++ toBe32 crcv) (11 + n) (d.length + 3) (by omega),
      getD_shift d (toBe32 crcv) d.length 0 (by omega),
      getD_shift d (toBe32 crcv) (d.length + 1) 1 (by omega),
      getD_shift d (toBe32 crcv) (d.length + 2) 2 (by omega),
      getD_shift d (toBe32 crcv) (d.length + 3) 3 (by omega)]
    exact fromBe32_toBe32 (by omega)
  have hexp : wireCrcExpected (toBe32 n ++ bt.toList ++ d ++ toBe32 crcv) =
      crc32 (bt.toList ++ d) := by
    unfold wireCrcExpected
    rw [hWL]
    have hdrop4 : (toBe32 n ++ bt.toList ++ d ++ toBe32 crcv).drop 4 =
        bt.toList ++ (d ++ toBe32 crcv) := rfl
    have h4d : (bt.toList ++ d).length = 4 + n := by
      simp [Bytes4.toList]
      omega
    rw [hdrop4, ← List.append_assoc, show 4 + n = (bt.toList ++ d).length from h4d.symm,
      List.take_left]
  exact ⟨hWL, hWT, hWCrc, hexp, htake, hlenv⟩

/-- C5: building a chunk from any valid TypeTag and any byte payload whose
length fits in 32 bits, assembling its section-6 wire form from the four
accessors, and re-parsing yields `Ok` of a chunk equal to the original (so in
particular equal length, tag bytes, data, and crc). -/
theorem chunk_roundtrip (b : Bytes4) (t : ChunkType) (d : List Nat)
    (ht : ChunkType.new b = some t) (hd : d.length < 2 ^ 32)
    (hbytes : ∀ x ∈ d, x < 256) :
    Chunk.tryFrom ((Chunk.new t d).assembleWire) = ChunkParse.ok (Chunk.new t d) := by
  obtain ⟨rfl, hv⟩ := ChunkType.new_eq_some ht
  have hLen : (Chunk.new (ChunkType.ofValid b) d).length = d.length := Nat.mod_eq_of_lt hd
  have hbt : ∀ x ∈ b.toList ++ d, x < 256 := by
    intro x hx
    rcases List.mem_append.mp hx with hx | hx
    · exact isAsciiAlphabetic_lt (List.all_eq_true.mp hv x hx)
    · exact hbytes x hx
  have hcrcLt : (Chunk.new (ChunkType.ofValid b) d).crc < 2 ^ 32 := crc32_lt _ hbt
  obtain ⟨hWL, hWT, hWCrc, hexp, htake, hlenv⟩ :=
    wire_facts b d (Chunk.new (ChunkType.ofValid b) d).length
      (Chunk.new (ChunkType.ofValid b) d).crc hLen hd hcrcLt
  have hAW : Chunk.assembleWire (Chunk.new (ChunkType.ofValid b) d) =
      toBe32 (Chunk.new (ChunkType.ofValid b) d).length ++ b.toList ++ d ++
        toBe32 (Chunk.new (ChunkType.ofValid b) d).crc := rfl
  rw [hAW, tryFrom_wellformed _ (by rw [hlenv, hWL]) (by rw [hWT]; exact hv)]
  rw [hWCrc, hexp, hWL, hWT, htake]
  rw [if_pos (show (Chunk.new (ChunkType.ofValid b) d).crc = crc32 (b.toList ++ d) from rfl)]
  rfl

set_option maxRecDepth 10000 in
/-- C5 witness: round trip of the tag "RuSt" with a 2-byte payload. -/
theorem chunk_roundtrip_witness :
    Chunk.tryFrom ((Chunk.new tRuSt [104, 105]).assembleWire) =
      ChunkParse.ok (Chunk.new tRuSt [104, 105]) :=
  chunk_roundtrip ⟨82, 117, 83, 116⟩ tRuSt [104, 105] (by decide) (by decide) (by decide)

end Pngme
